import Mathlib

/-!
Shallow embedding of the column-inference and data-normalization core of
`src/app_demo.py` (a Streamlit shoe-sales dashboard).  The embedded parts are:

* the column resolver (lines 66-70): for each semantic role, `next(...)` over
  the data frame's column list picks the first column whose lower-cased name
  contains one of the role's synonym substrings;
* the user-override step (lines 73-89): when one of date/location/sales is
  unresolved, every still-unresolved role is filled from an externally
  supplied selection;
* the normalizer (lines 92-117): build a source-name → canonical-name dict,
  rename, coerce the `Datum` column to dates (unparseable cells become
  missing, mirroring `pd.to_datetime(..., errors='coerce')`), and derive
  `Omzet = Verkoop * Prijs` when both columns are present;
* the synthetic-data fallback (lines 42-59): 500 rows drawn from fixed
  category domains using numpy's (unseeded) global random state, modelled
  here as an explicit stream of random naturals.

Cell values are modelled by an explicit `Value` type with a `missing`
sentinel (pandas `NaN`/`NaT`); a table is an ordered association list of
column name to value list, all value lists of equal length (`WellFormed`).
-/

set_option autoImplicit false
set_option maxRecDepth 10000

namespace AppDemo

/-- Cell values of a data frame: strings, integers, dates (encoded as a
single natural, e.g. `y*10000 + m*100 + d`), or the missing sentinel
(pandas `NaN`/`NaT`). -/
inductive Value where
  | str : String → Value
  | num : Int → Value
  | date : Nat → Value
  | missing : Value
deriving DecidableEq, Repr

/-- A data frame: an ordered list of columns, each a name paired with its
cell values. -/
structure Table where
  cols : List (String × List Value)
deriving DecidableEq, Repr

/-- Row count of a table: the length of its first column (in pandas all
columns share one index, so under `WellFormed` every column has this
length). -/
def numRows (t : Table) : Nat :=
  match t.cols with
  | [] => 0
  | c :: _ => c.2.length

/-- All columns have the same number of cells — every real data frame
satisfies this, since pandas columns share a single index. -/
def WellFormed (t : Table) : Prop :=
  ∀ c ∈ t.cols, c.2.length = numRows t

instance (t : Table) : Decidable (WellFormed t) :=
  List.decidableBAll _ _

/-- First column with the given name, if any (pandas `df[name]` for unique
labels). -/
def getCol (t : Table) (n : String) : Option (List Value) :=
  (t.cols.find? (fun c => c.1 = n)).map (fun c => c.2)

/-- Column lookup with `[]` as default. -/
def getColD (t : Table) (n : String) : List Value :=
  (getCol t n).getD []

/-- Membership test for a column name (`name in df.columns`). -/
def hasCol (t : Table) (n : String) : Bool :=
  t.cols.any (fun c => c.1 = n)

/-- Python `df[name] = vs`: replace the values of an existing column in
place, else append a new column at the end. -/
def setCol (t : Table) (n : String) (vs : List Value) : Table :=
  if hasCol t n then
    ⟨t.cols.map (fun c => if c.1 = n then (n, vs) else c)⟩
  else
    ⟨t.cols ++ [(n, vs)]⟩

/-- Substring test on character lists, used to embed Python's `in` on
strings. -/
def startsWithChars : List Char → List Char → Bool
  | [], _ => true
  | _ :: _, [] => false
  | a :: as, b :: bs => a == b && startsWithChars as bs

/-- Python `needle in hay` for strings. -/
def containsChars (needle : List Char) : List Char → Bool
  | [] => startsWithChars needle []
  | b :: bs => startsWithChars needle (b :: bs) || containsChars needle bs

/-- Python `col.lower()` on the character list of a name. -/
def lowerChars (cs : List Char) : List Char :=
  cs.map Char.toLower

/-- Python `needle in hay.lower()` lifted to `String`. -/
def strContainsLower (hay needle : String) : Bool :=
  containsChars needle.data (lowerChars hay.data)

/-! ### Column resolver (src/app_demo.py lines 66-70) -/

/-- The five semantic roles the resolver tries to identify. -/
inductive Role where
  | date | location | product | salesQuantity | price
deriving DecidableEq, Fintype, Repr

/-- Synonym substrings per role, as in the five `next(...)` generator
conditions of lines 66-70. -/
def roleSyns : Role → List String
  | .date => ["date", "datum"]
  | .location => ["location", "locatie"]
  | .product => ["product", "schoen", "type"]
  | .salesQuantity => ["sales", "verkoop"]
  | .price => ["price", "prijs"]

/-- Does a column name match a role: some synonym is a substring of the
lower-cased name (`'date' in col.lower() or 'datum' in col.lower()`). -/
def matchesRole (syns : List String) (col : String) : Bool :=
  syns.any (fun s => strContainsLower col s)

/-- One `next((col for col in df.columns if ...), None)` call: the first
column in original order whose lower-cased name contains a synonym. -/
def resolveRole (syns : List String) (cols : List String) : Option String :=
  cols.find? (matchesRole syns)

/-- The five resolved column variables `date_col`, `location_col`,
`product_col`, `sales_col`, `price_col` of lines 66-70. -/
structure Resolved where
  date_col : Option String
  location_col : Option String
  product_col : Option String
  sales_col : Option String
  price_col : Option String
deriving DecidableEq, Repr

/-- Lines 66-70: each role is resolved by an independent scan of the full
column list. -/
def resolve (cols : List String) : Resolved :=
  { date_col := resolveRole (roleSyns .date) cols
    location_col := resolveRole (roleSyns .location) cols
    product_col := resolveRole (roleSyns .product) cols
    sales_col := resolveRole (roleSyns .salesQuantity) cols
    price_col := resolveRole (roleSyns .price) cols }

/-- Projection of a `Resolved` record at a role. -/
def Resolved.forRole (r : Resolved) : Role → Option String
  | .date => r.date_col
  | .location => r.location_col
  | .product => r.product_col
  | .salesQuantity => r.sales_col
  | .price => r.price_col

/-! ### User-override step (src/app_demo.py lines 73-89) -/

/-- The externally supplied selections (`st.selectbox` results), one per
role. -/
structure Overrides where
  date : String
  location : String
  product : String
  sales : String
  price : String
deriving DecidableEq, Repr

/-- Lines 73-89: only when one of `date_col`, `location_col`, `sales_col`
is unresolved does the app ask the user; in that branch each of the five
variables that is still `None` is replaced by the selectbox value. -/
def mergeOverrides (r : Resolved) (o : Overrides) : Resolved :=
  if r.date_col.isNone || r.location_col.isNone || r.sales_col.isNone then
    { date_col := some (r.date_col.getD o.date)
      location_col := some (r.location_col.getD o.location)
      product_col := some (r.product_col.getD o.product)
      sales_col := some (r.sales_col.getD o.sales)
      price_col := some (r.price_col.getD o.price) }
  else r

/-! ### Normalizer (src/app_demo.py lines 92-117) -/

/-- Lines 95-105 insert `source → canonical` pairs into the Python dict
`column_mapping`; inserting an existing key keeps its position and updates
its value. -/
def dictInsert (m : List (String × String)) (k v : String) : List (String × String) :=
  if m.any (fun p => p.1 = k) then
    m.map (fun p => if p.1 = k then (k, v) else p)
  else
    m ++ [(k, v)]

/-- One `if role_col: column_mapping[role_col] = canonical` step. -/
def addIf (m : List (String × String)) (o : Option String) (can : String) :
    List (String × String) :=
  match o with
  | some c => dictInsert m c can
  | none => m

/-- The `column_mapping` dict of lines 95-105, built in the fixed order
date, location, product, sales, price. -/
def buildColumnMapping (r : Resolved) : List (String × String) :=
  addIf (addIf (addIf (addIf (addIf [] r.date_col "Datum")
    r.location_col "Locatie") r.product_col "SchoenType")
    r.sales_col "Verkoop") r.price_col "Prijs"

/-- New name of a column under the mapping dict (unmapped names are kept,
as `DataFrame.rename` ignores absent keys). -/
def renameName (m : List (String × String)) (n : String) : String :=
  match m.find? (fun p => p.1 = n) with
  | some p => p.2
  | none => n

/-- Line 108: `processed_df.rename(columns=column_mapping)` — names change,
cell values and column order do not.  (With an empty mapping line 107 skips
the call, which coincides with renaming by the empty dict.) -/
def renameCols (t : Table) (m : List (String × String)) : Table :=
  ⟨t.cols.map (fun c => (renameName m c.1, c.2))⟩

/-- Split a character list at `-` separators. -/
def splitDash : List Char → List (List Char)
  | [] => [[]]
  | c :: rest =>
    match splitDash rest with
    | [] => [[]]
    | g :: gs => if c == '-' then [] :: g :: gs else (c :: g) :: gs

/-- Read a non-empty all-digit character group as a natural number. -/
def digitsToNat : List Char → Option Nat
  | [] => none
  | cs =>
    if cs.all Char.isDigit then
      some (cs.foldl (fun a c => a * 10 + (c.toNat - 48)) 0)
    else none

/-- Model of `pd.to_datetime` on one cell: dates stay themselves, integers
are read as epoch offsets, an ISO `YYYY-MM-DD` string parses to
`y*10000 + m*100 + d`, everything else (and missing) fails. -/
def parseDate : Value → Option Nat
  | .date d => some d
  | .num n => some n.natAbs
  | .str s =>
    match (splitDash s.data).map digitsToNat with
    | [some y, some m, some d] =>
      if 1 ≤ m && m ≤ 12 && 1 ≤ d && d ≤ 31 then some (y * 10000 + m * 100 + d)
      else none
    | _ => none
  | .missing => none

/-- One cell under `pd.to_datetime(..., errors='coerce')`: parse failures
become the missing sentinel (`NaT`), never an exception. -/
def coerceVal (v : Value) : Value :=
  match parseDate v with
  | some d => .date d
  | none => .missing

/-- A cell a datetime64 column can hold: a date or `NaT`. -/
def isDateLike : Value → Bool
  | .date _ => true
  | .missing => true
  | _ => false

/-- Lines 111-113 applied to one column: the `Datum` column is coerced
unless it already has datetime dtype (all cells date-like); other columns
are untouched. -/
def coerceFn (n : String) (vs : List Value) : List Value :=
  if n = "Datum" && !(vs.all isDateLike) then vs.map coerceVal else vs

/-- Lines 110-113: ensure the `Datum` column (if present) holds dates, with
unparseable cells coerced to missing. -/
def coerceDatum (t : Table) : Table :=
  ⟨t.cols.map (fun c => (c.1, coerceFn c.1 c.2))⟩

/-- Element-wise `Verkoop * Prijs` on one row: a number only when both
factors are numbers; a missing factor (pandas `NaN`) gives a missing
product. -/
def mulVal : Value → Value → Value
  | .num a, .num b => .num (a * b)
  | _, _ => .missing

/-- Lines 116-117: `processed_df['Omzet'] = processed_df['Verkoop'] *
processed_df['Prijs']` when both columns exist. -/
def deriveOmzet (t : Table) : Table :=
  if hasCol t "Verkoop" && hasCol t "Prijs" then
    setCol t "Omzet" (List.zipWith mulVal (getColD t "Verkoop") (getColD t "Prijs"))
  else t

/-- Lines 92-117 end to end: rename the identified columns to the canonical
schema, coerce `Datum`, derive `Omzet`. -/
def normalize (t : Table) (r : Resolved) : Table :=
  deriveOmzet (coerceDatum (renameCols t (buildColumnMapping r)))

/-! ### Synthetic-data fallback (src/app_demo.py lines 42-59) -/

/-- The 100-day date range starting 2023-01-01, as day offsets. -/
def sampleDates : List Nat := List.range 100

/-- The five fixed locations of line 46. -/
def sampleLocations : List String :=
  ["Amsterdam", "Rotterdam", "Utrecht", "Den Haag", "Eindhoven"]

/-- The five fixed shoe types of line 47. -/
def sampleShoeTypes : List String :=
  ["Sneakers", "Loafers", "Boots", "High Heels", "Sandals"]

/-- `np.random.choice(xs)` given one random draw `r` from the global
random state. -/
def npChoice {α : Type} (xs : List α) (d : α) (r : Nat) : α :=
  xs.getD (r % xs.length) d

/-- `np.random.randint(lo, hi)` (half-open) given one random draw `r`. -/
def npRandint (lo hi r : Nat) : Nat :=
  lo + r % (hi - lo)

/-- Lines 49-59: the 500-row synthetic table.  numpy's global random state
is modelled as a stream `g` of random draws; the code sets no seed, so the
stream differs from run to run.  Row `i` consumes draws `5*i .. 5*i+4`. -/
def sampleData (g : Nat → Nat) : Table :=
  ⟨[("Datum", (List.range 500).map
      (fun i => Value.date (npChoice sampleDates 0 (g (5 * i))))),
    ("Locatie", (List.range 500).map
      (fun i => Value.str (npChoice sampleLocations "" (g (5 * i + 1))))),
    ("SchoenType", (List.range 500).map
      (fun i => Value.str (npChoice sampleShoeTypes "" (g (5 * i + 2))))),
    ("Verkoop", (List.range 500).map
      (fun i => Value.num (Int.ofNat (npRandint 1 10 (g (5 * i + 3)))))),
    ("Prijs", (List.range 500).map
      (fun i => Value.num (Int.ofNat (npRandint 100 500 (g (5 * i + 4))))))]⟩

/-! ### Basic lemmas about the table operations -/

theorem getCol_eq_some_mem {t : Table} {n : String} {vs : List Value}
    (h : getCol t n = some vs) : (n, vs) ∈ t.cols := by
  unfold getCol at h
  cases hf : t.cols.find? (fun c => c.1 = n) with
  | none => simp [hf] at h
  | some c =>
    have hc : c.1 = n := by
      have := List.find?_some hf
      simpa using this
    have hm := List.mem_of_find?_eq_some hf
    simp [hf] at h
    have : c = (n, vs) := by
      cases c
      simp_all
    rwa [this] at hm

theorem hasCol_iff_exists {t : Table} {n : String} :
    hasCol t n = true ↔ ∃ vs, (n, vs) ∈ t.cols := by
  unfold hasCol
  rw [List.any_eq_true]
  constructor
  · rintro ⟨c, hm, hc⟩
    refine ⟨c.2, ?_⟩
    have : c.1 = n := by simpa using hc
    cases c
    simp_all
  · rintro ⟨vs, hm⟩
    exact ⟨(n, vs), hm, by simp⟩

theorem hasCol_of_getCol {t : Table} {n : String} {vs : List Value}
    (h : getCol t n = some vs) : hasCol t n = true :=
  hasCol_iff_exists.mpr ⟨vs, getCol_eq_some_mem h⟩

theorem getCol_isSome_of_hasCol {t : Table} {n : String}
    (h : hasCol t n = true) : ∃ vs, getCol t n = some vs := by
  unfold hasCol at h
  rw [List.any_eq_true] at h
  obtain ⟨c, hm, hc⟩ := h
  have hs : (t.cols.find? (fun c => c.1 = n)).isSome := by
    apply List.find?_isSome.mpr
    exact ⟨c, hm, hc⟩
  cases hf : t.cols.find? (fun c => c.1 = n) with
  | none => rw [hf] at hs; simp at hs
  | some d => exact ⟨d.2, by simp [getCol, hf]⟩

theorem getCol_mapVals (l : List (String × List Value))
    (f : String → List Value → List Value) (n : String) :
    getCol ⟨l.map (fun c => (c.1, f c.1 c.2))⟩ n = (getCol ⟨l⟩ n).map (f n) := by
  induction l with
  | nil => rfl
  | cons c tl ih =>
    by_cases h : c.1 = n
    · rw [getCol, getCol, List.map_cons,
        List.find?_cons_of_pos _ (by simpa using h),
        List.find?_cons_of_pos _ (by simpa using h)]
      simp [h]
    · rw [getCol, getCol, List.map_cons,
        List.find?_cons_of_neg _ (by simpa using h),
        List.find?_cons_of_neg _ (by simpa using h)]
      exact ih

theorem find?_eq_none_of_hasCol_false {t : Table} {n : String}
    (h : hasCol t n = false) : t.cols.find? (fun c => c.1 = n) = none := by
  rw [List.find?_eq_none]
  intro c hm
  intro hc
  have : hasCol t n = true :=
    hasCol_iff_exists.mpr ⟨c.2, by cases c; simp_all⟩
  simp [this] at h

theorem getCol_setCol_self (t : Table) (n : String) (vs : List Value) :
    getCol (setCol t n vs) n = some vs := by
  unfold setCol
  by_cases h : hasCol t n
  · simp only [h, if_true]
    have h' := h
    rw [hasCol_iff_exists] at h'
    obtain ⟨ws, hm⟩ := h'
    obtain ⟨l⟩ := t
    simp only at hm ⊢
    clear h
    induction l with
    | nil => simp at hm
    | cons c tl ih =>
      by_cases hc : c.1 = n
      · rw [getCol, List.map_cons, if_pos hc,
          List.find?_cons_of_pos _ (by simp)]
        rfl
      · rw [List.mem_cons] at hm
        rcases hm with hm | hm
        · exact absurd (by rw [← hm]) hc
        · rw [getCol, List.map_cons, if_neg hc,
            List.find?_cons_of_neg _ (by simpa using hc)]
          exact ih hm
  · rw [Bool.not_eq_true] at h
    simp only [h, Bool.false_eq_true, if_false]
    rw [getCol, List.find?_append, find?_eq_none_of_hasCol_false h]
    simp [List.find?]

theorem find?_replace_ne (l : List (String × List Value)) (n n' : String)
    (vs : List Value) (h : n' ≠ n) :
    (l.map (fun c => if c.1 = n then (n, vs) else c)).find? (fun c => c.1 = n') =
      l.find? (fun c => c.1 = n') := by
  induction l with
  | nil => rfl
  | cons c tl ih =>
    by_cases h1 : c.1 = n
    · rw [List.map_cons, if_pos h1,
        List.find?_cons_of_neg _ (by simpa using Ne.symm h),
        List.find?_cons_of_neg _ (by rw [h1]; simpa using Ne.symm h)]
      exact ih
    · rw [List.map_cons, if_neg h1]
      by_cases h2 : c.1 = n'
      · rw [List.find?_cons_of_pos _ (by simpa using h2),
          List.find?_cons_of_pos _ (by simpa using h2)]
      · rw [List.find?_cons_of_neg _ (by simpa using h2),
          List.find?_cons_of_neg _ (by simpa using h2)]
        exact ih

theorem getCol_setCol_ne {t : Table} {n n' : String} (vs : List Value)
    (h : n' ≠ n) : getCol (setCol t n vs) n' = getCol t n' := by
  unfold setCol
  by_cases hc : hasCol t n
  · simp only [hc, if_true]
    unfold getCol
    rw [find?_replace_ne t.cols n n' vs h]
  · rw [Bool.not_eq_true] at hc
    simp only [hc, Bool.false_eq_true, if_false]
    rw [getCol, List.find?_append, getCol]
    cases hf : t.cols.find? (fun c => c.1 = n') with
    | some c => rfl
    | none =>
      simp only [Option.none_or]
      rw [List.find?_cons_of_neg _ (by simpa using Ne.symm h)]
      rfl

theorem any_replace (l : List (String × List Value)) (n n' : String)
    (vs : List Value) :
    (l.map (fun c => if c.1 = n then (n, vs) else c)).any (fun c => c.1 = n') =
      l.any (fun c => c.1 = n') := by
  induction l with
  | nil => rfl
  | cons c tl ih =>
    by_cases h1 : c.1 = n
    · rw [List.map_cons, if_pos h1, List.any_cons, List.any_cons, ih, h1]
    · rw [List.map_cons, if_neg h1, List.any_cons, List.any_cons, ih]

theorem hasCol_setCol_ne {t : Table} {n n' : String} (vs : List Value)
    (h : n' ≠ n) : hasCol (setCol t n vs) n' = hasCol t n' := by
  unfold setCol
  by_cases hc : hasCol t n
  · simp only [hc, if_true]
    unfold hasCol
    exact any_replace t.cols n n' vs
  · rw [Bool.not_eq_true] at hc
    simp only [hc, Bool.false_eq_true, if_false]
    unfold hasCol
    rw [List.any_append]
    simp [Ne.symm h]

theorem mem_setCol_of_ne {t : Table} {c : String} {ws : List Value}
    {n : String} (vs : List Value) (hm : (c, ws) ∈ t.cols) (h : c ≠ n) :
    (c, ws) ∈ (setCol t n vs).cols := by
  unfold setCol
  by_cases hc : hasCol t n
  · simp only [hc, if_true]
    refine List.mem_map.mpr ⟨(c, ws), hm, ?_⟩
    simp [h]
  · rw [Bool.not_eq_true] at hc
    simp only [hc, Bool.false_eq_true, if_false]
    exact List.mem_append_left _ hm

theorem hasCol_coerceDatum (t : Table) (n : String) :
    hasCol (coerceDatum t) n = hasCol t n := by
  unfold coerceDatum hasCol
  rw [List.any_map]
  rfl

theorem getCol_coerceDatum (t : Table) (n : String) :
    getCol (coerceDatum t) n = (getCol t n).map (coerceFn n) := by
  unfold coerceDatum
  exact getCol_mapVals t.cols coerceFn n

theorem coerceFn_ne {n : String} (vs : List Value) (h : n ≠ "Datum") :
    coerceFn n vs = vs := by
  simp [coerceFn, h]

theorem coerceVal_of_dateLike {v : Value} (h : isDateLike v = true) :
    coerceVal v = v := by
  cases v <;> simp_all [isDateLike, coerceVal, parseDate]

theorem map_coerceVal_of_all {vs : List Value} (h : vs.all isDateLike = true) :
    vs.map coerceVal = vs := by
  induction vs with
  | nil => rfl
  | cons v tl ih =>
    simp only [List.all_cons, Bool.and_eq_true] at h
    simp [coerceVal_of_dateLike h.1, ih h.2]

theorem coerceFn_datum (vs : List Value) :
    coerceFn "Datum" vs = vs.map coerceVal := by
  unfold coerceFn
  by_cases h : vs.all isDateLike
  · simp only [h, Bool.not_true, Bool.and_false, if_false]
    exact (map_coerceVal_of_all h).symm
  · rw [Bool.not_eq_true] at h
    simp [h]

theorem mem_renameCols {t : Table} {c : String} {vs : List Value}
    (m : List (String × String)) (hm : (c, vs) ∈ t.cols) :
    (renameName m c, vs) ∈ (renameCols t m).cols :=
  List.mem_map.mpr ⟨(c, vs), hm, rfl⟩

theorem hasCol_renameCols_of_mem {t : Table} {c : String} {vs : List Value}
    {m : List (String × String)} {can : String}
    (hm : (c, vs) ∈ t.cols) (hr : renameName m c = can) :
    hasCol (renameCols t m) can = true := by
  apply hasCol_iff_exists.mpr
  exact ⟨vs, hr ▸ mem_renameCols m hm⟩

/-! ### Row count and well-formedness through the normalizer -/

theorem coerceFn_length (n : String) (vs : List Value) :
    (coerceFn n vs).length = vs.length := by
  unfold coerceFn
  split
  · exact List.length_map _ _
  · rfl

theorem numRows_renameCols (t : Table) (m : List (String × String)) :
    numRows (renameCols t m) = numRows t := by
  cases h : t.cols <;> simp [numRows, renameCols, h]

theorem numRows_coerceDatum (t : Table) :
    numRows (coerceDatum t) = numRows t := by
  cases h : t.cols <;> simp [numRows, coerceDatum, h, coerceFn_length]

theorem wf_renameCols {t : Table} (m : List (String × String))
    (hwf : WellFormed t) : WellFormed (renameCols t m) := by
  intro c hc
  rw [numRows_renameCols]
  obtain ⟨d, hd, he⟩ := List.mem_map.mp hc
  rw [← he]
  exact hwf d hd

theorem wf_coerceDatum {t : Table} (hwf : WellFormed t) :
    WellFormed (coerceDatum t) := by
  intro c hc
  rw [numRows_coerceDatum]
  obtain ⟨d, hd, he⟩ := List.mem_map.mp hc
  rw [← he]
  simpa [coerceFn_length] using hwf d hd

theorem length_getColD {t : Table} {n : String} (hwf : WellFormed t)
    (h : hasCol t n = true) : (getColD t n).length = numRows t := by
  obtain ⟨vs, hv⟩ := getCol_isSome_of_hasCol h
  rw [getColD, hv, Option.getD_some]
  exact hwf _ (getCol_eq_some_mem hv)

theorem cols_ne_nil_of_hasCol {t : Table} {n : String}
    (h : hasCol t n = true) : t.cols ≠ [] := by
  intro he
  rw [hasCol, he] at h
  simp at h

theorem numRows_setCol {t : Table} {n : String} {vs : List Value}
    (hne : t.cols ≠ []) (hlen : vs.length = numRows t) :
    numRows (setCol t n vs) = numRows t := by
  unfold setCol
  by_cases hc : hasCol t n
  · simp only [hc, if_true]
    cases h : t.cols with
    | nil => exact absurd h hne
    | cons c tl =>
      have hnr : numRows t = c.2.length := by simp [numRows, h]
      by_cases h1 : c.1 = n
      · simp only [List.map_cons, if_pos h1, numRows]
        exact hlen
      · simp only [List.map_cons, if_neg h1, numRows]
        exact hnr.symm
  · rw [Bool.not_eq_true] at hc
    simp only [hc, Bool.false_eq_true, if_false]
    cases h : t.cols with
    | nil => exact absurd h hne
    | cons c tl => simp [numRows, h]

theorem numRows_deriveOmzet {t : Table} (hwf : WellFormed t) :
    numRows (deriveOmzet t) = numRows t := by
  unfold deriveOmzet
  by_cases hc : (hasCol t "Verkoop" && hasCol t "Prijs") = true
  · rw [if_pos hc]
    rw [Bool.and_eq_true] at hc
    apply numRows_setCol (cols_ne_nil_of_hasCol hc.1)
    rw [List.length_zipWith, length_getColD hwf hc.1, length_getColD hwf hc.2,
      Nat.min_self]
  · rw [if_neg hc]

theorem numRows_normalize (t : Table) (r : Resolved) (hwf : WellFormed t) :
    numRows (normalize t r) = numRows t := by
  unfold normalize
  rw [numRows_deriveOmzet (wf_coerceDatum (wf_renameCols _ hwf)),
    numRows_coerceDatum, numRows_renameCols]

/-! ### Lookups through `deriveOmzet` -/

theorem getCol_deriveOmzet_ne {t : Table} {n : String} (h : n ≠ "Omzet") :
    getCol (deriveOmzet t) n = getCol t n := by
  unfold deriveOmzet
  split
  · exact getCol_setCol_ne _ h
  · rfl

theorem hasCol_deriveOmzet_ne {t : Table} {n : String} (h : n ≠ "Omzet") :
    hasCol (deriveOmzet t) n = hasCol t n := by
  unfold deriveOmzet
  split
  · exact hasCol_setCol_ne _ h
  · rfl

/-! ### The resolver as a first-match scan -/

theorem find?_first {α : Type} (p : α → Bool) :
    ∀ (l : List α) (i : Nat) (hi : i < l.length),
      p (l.get ⟨i, hi⟩) = true →
      (∀ j, (hj : j < i) → p (l.get ⟨j, Nat.lt_trans hj hi⟩) = false) →
      l.find? p = some (l.get ⟨i, hi⟩)
  | [], i, hi, _, _ => absurd hi (by simp)
  | a :: tl, 0, _, hm, _ => by
    rw [List.get]
    exact List.find?_cons_of_pos _ hm
  | a :: tl, k + 1, hi, hm, he => by
    have h0 : p a = false := he 0 (Nat.succ_pos k)
    rw [List.find?_cons_of_neg _ (by simp [h0])]
    exact find?_first p tl k (Nat.lt_of_succ_lt_succ hi) hm
      (fun j hj => he (j + 1) (Nat.succ_lt_succ hj))

theorem forRole_resolve (cols : List String) (ρ : Role) :
    (resolve cols).forRole ρ = resolveRole (roleSyns ρ) cols := by
  cases ρ <;> rfl

theorem npChoice_mem {α : Type} (xs : List α) (d : α) (r : Nat)
    (h : xs ≠ []) : npChoice xs d r ∈ xs := by
  unfold npChoice
  have hlen : 0 < xs.length := List.length_pos.mpr h
  have hr : r % xs.length < xs.length := Nat.mod_lt _ hlen
  rw [List.getD_eq_getElem?_getD, List.getElem?_eq_getElem hr]
  exact List.getElem_mem _

/-! ### Claim C1 -/

/-- C1: the claim states that `resolve` never assigns one source column to
two roles because earlier-priority roles consume columns.  The code has no
such exclusion: each of the five `next(...)` scans at lines 66-70 runs over
the full column list, so `"verkoopdatum"` (which contains both `"datum"`
and `"verkoop"`) is assigned to the Date role and to the SalesQuantity
role at once. -/
theorem resolve_double_assignment :
    (resolve ["verkoopdatum"]).forRole Role.date = some "verkoopdatum" ∧
    (resolve ["verkoopdatum"]).forRole Role.salesQuantity = some "verkoopdatum" ∧
    Role.date ≠ Role.salesQuantity := by
  decide

/-- C1 (amended): `resolve` runs the five role scans independently over the
full column list, so a column can be assigned to every role whose synonym
list it matches; when no column name matches the synonym lists of two
distinct roles, no source column is assigned to two different roles. -/
theorem resolve_no_double_assignment_of_unique_role (cols : List String)
    (h : ∀ c ∈ cols, ∀ ρ₁ ρ₂ : Role,
      matchesRole (roleSyns ρ₁) c = true → matchesRole (roleSyns ρ₂) c = true →
      ρ₁ = ρ₂)
    (ρ₁ ρ₂ : Role) (hne : ρ₁ ≠ ρ₂) (c : String)
    (h1 : (resolve cols).forRole ρ₁ = some c) :
    (resolve cols).forRole ρ₂ ≠ some c := by
  intro h2
  rw [forRole_resolve] at h1 h2
  have hc1 := List.find?_some h1
  have hm := List.mem_of_find?_eq_some h2
  have hc2 := List.find?_some h2
  exact hne (h c hm ρ₁ ρ₂ hc1 hc2)

theorem resolve_no_double_assignment_witness :
    (resolve ["Datum", "Locatie", "SchoenType", "Verkoop", "Prijs"]).forRole
      Role.salesQuantity ≠ some "Datum" :=
  resolve_no_double_assignment_of_unique_role
    ["Datum", "Locatie", "SchoenType", "Verkoop", "Prijs"] (by decide)
    Role.date Role.salesQuantity (by decide) "Datum" (by decide)

/-! ### Claim C2 -/

/-- C2: when two or more distinct columns match a role's synonyms, the
role resolves to the earliest matching column of the input order: if
position `i` matches and every earlier position does not, the role's
`next(...)` scan returns the column at `i`.  Determinism is inherent:
`resolve` is a pure function of the column list. -/
theorem resolve_earliest_match_wins (ρ : Role) (cols : List String)
    (c₁ c₂ : String) (_hm₁ : c₁ ∈ cols) (_hm₂ : c₂ ∈ cols) (_hne : c₁ ≠ c₂)
    (_hmc₁ : matchesRole (roleSyns ρ) c₁ = true)
    (_hmc₂ : matchesRole (roleSyns ρ) c₂ = true)
    (i : Nat) (hi : i < cols.length)
    (hfirst : matchesRole (roleSyns ρ) (cols.get ⟨i, hi⟩) = true)
    (hbefore : ∀ j, (hj : j < i) →
      matchesRole (roleSyns ρ) (cols.get ⟨j, Nat.lt_trans hj hi⟩) = false) :
    (resolve cols).forRole ρ = some (cols.get ⟨i, hi⟩) := by
  rw [forRole_resolve]
  exact find?_first _ cols i hi hfirst hbefore

theorem resolve_earliest_match_wins_witness :
    (resolve ["datumA", "datumB"]).forRole Role.date = some "datumA" :=
  resolve_earliest_match_wins Role.date ["datumA", "datumB"] "datumA" "datumB"
    (by decide) (by decide) (by decide) (by decide) (by decide)
    0 (by decide) (by decide) (fun j hj => absurd hj (Nat.not_lt_zero j))

/-! ### Claim C6 -/

/-- C6: the claim states that whenever resolution is partial an external
completion is accepted for every unresolved role.  The code's override
block (line 73) runs only when one of `date_col`, `location_col`,
`sales_col` is unresolved: with columns `["Datum","Locatie","Verkoop"]`
the Product and Price roles stay unresolved, yet the supplied completion
(here offering `"Datum"` for every role) is never consulted — both roles
are still unresolved after the override step. -/
theorem override_not_offered_counterexample :
    (resolve ["Datum", "Locatie", "Verkoop"]).product_col = none ∧
    (resolve ["Datum", "Locatie", "Verkoop"]).price_col = none ∧
    (mergeOverrides (resolve ["Datum", "Locatie", "Verkoop"])
      ⟨"Datum", "Datum", "Datum", "Datum", "Datum"⟩).product_col = none ∧
    (mergeOverrides (resolve ["Datum", "Locatie", "Verkoop"])
      ⟨"Datum", "Datum", "Datum", "Datum", "Datum"⟩).price_col = none := by
  decide

/-- C6 (amended): only when one of the Date, Location, SalesQuantity roles
is unresolved does the override step run; in that case it accepts the
externally supplied completion for every unresolved role, so all five
roles end up resolved.  Partiality is a structured result (`Option`
fields), and the override step is a total function — no exception is
raised. -/
theorem mergeOverrides_completes_when_required_missing (r : Resolved)
    (o : Overrides)
    (h : r.date_col = none ∨ r.location_col = none ∨ r.sales_col = none) :
    (mergeOverrides r o).date_col.isSome = true ∧
    (mergeOverrides r o).location_col.isSome = true ∧
    (mergeOverrides r o).product_col.isSome = true ∧
    (mergeOverrides r o).sales_col.isSome = true ∧
    (mergeOverrides r o).price_col.isSome = true := by
  have hc : (r.date_col.isNone || r.location_col.isNone || r.sales_col.isNone)
      = true := by
    rcases h with h | h | h <;> simp [h]
  unfold mergeOverrides
  rw [if_pos hc]
  exact ⟨rfl, rfl, rfl, rfl, rfl⟩

theorem mergeOverrides_completes_witness :
    (mergeOverrides ⟨none, some "LocColumn", none, some "SalesColumn", none⟩
      ⟨"a", "b", "c", "d", "e"⟩).product_col.isSome = true :=
  (mergeOverrides_completes_when_required_missing
    ⟨none, some "LocColumn", none, some "SalesColumn", none⟩
    ⟨"a", "b", "c", "d", "e"⟩ (Or.inl rfl)).2.2.1

/-! ### Claim C7 -/

/-- C7: the claim states the fallback table is generated from a fixed
random seed so that two runs produce the identical table.  The code never
seeds numpy's global random state (no `np.random.seed` anywhere), so the
table depends on whatever state the process is in: two different random
states yield different tables. -/
theorem sampleData_depends_on_random_state :
    sampleData (fun _ => 0) ≠ sampleData (fun _ => 1) := by
  decide

/-- C7 (amended): the fallback always produces a table with the fixed
canonical schema, exactly 500 rows, and values drawn from the fixed
category domains (a 100-day date range, five locations, five shoe types,
`Verkoop` in `[1,10)`, `Prijs` in `[100,500)`); but no random seed is
fixed, so the cell values depend on the ambient random state. -/
theorem sampleData_fixed_schema_and_domains (g : Nat → Nat) :
    (sampleData g).cols.map Prod.fst =
      ["Datum", "Locatie", "SchoenType", "Verkoop", "Prijs"] ∧
    numRows (sampleData g) = 500 ∧
    (∀ v ∈ getColD (sampleData g) "Datum", ∃ d ∈ sampleDates, v = Value.date d) ∧
    (∀ v ∈ getColD (sampleData g) "Locatie",
      ∃ s ∈ sampleLocations, v = Value.str s) ∧
    (∀ v ∈ getColD (sampleData g) "SchoenType",
      ∃ s ∈ sampleShoeTypes, v = Value.str s) ∧
    (∀ v ∈ getColD (sampleData g) "Verkoop",
      ∃ n : Nat, 1 ≤ n ∧ n < 10 ∧ v = Value.num (Int.ofNat n)) ∧
    (∀ v ∈ getColD (sampleData g) "Prijs",
      ∃ n : Nat, 100 ≤ n ∧ n < 500 ∧ v = Value.num (Int.ofNat n)) := by
  refine ⟨rfl, by simp [numRows, sampleData], ?_, ?_, ?_, ?_, ?_⟩
  · intro v hv
    obtain ⟨i, _, he⟩ := List.mem_map.mp hv
    exact ⟨npChoice sampleDates 0 (g (5 * i)),
      npChoice_mem _ _ _ (by decide), he.symm⟩
  · intro v hv
    obtain ⟨i, _, he⟩ := List.mem_map.mp hv
    exact ⟨npChoice sampleLocations "" (g (5 * i + 1)),
      npChoice_mem _ _ _ (by decide), he.symm⟩
  · intro v hv
    obtain ⟨i, _, he⟩ := List.mem_map.mp hv
    exact ⟨npChoice sampleShoeTypes "" (g (5 * i + 2)),
      npChoice_mem _ _ _ (by decide), he.symm⟩
  · intro v hv
    obtain ⟨i, _, he⟩ := List.mem_map.mp hv
    refine ⟨npRandint 1 10 (g (5 * i + 3)), Nat.le_add_right 1 _, ?_, he.symm⟩
    have : g (5 * i + 3) % 9 < 9 := Nat.mod_lt _ (by decide)
    unfold npRandint
    omega
  · intro v hv
    obtain ⟨i, _, he⟩ := List.mem_map.mp hv
    refine ⟨npRandint 100 500 (g (5 * i + 4)), Nat.le_add_right 100 _, ?_, he.symm⟩
    have : g (5 * i + 4) % 400 < 400 := Nat.mod_lt _ (by decide)
    unfold npRandint
    omega

theorem hasCol_setCol_self (t : Table) (n : String) (vs : List Value) :
    hasCol (setCol t n vs) n = true :=
  hasCol_of_getCol (getCol_setCol_self t n vs)

theorem hasCol_deriveOmzet_self {t : Table}
    (h : (hasCol t "Verkoop" && hasCol t "Prijs") = true) :
    hasCol (deriveOmzet t) "Omzet" = true := by
  unfold deriveOmzet
  rw [if_pos h]
  exact hasCol_setCol_self _ _ _

/-! ### Claim C3 -/

/-- C3: when the renamed table has a `Datum` column, `normalize` replaces
every cell of it with its parse result, turning each unparseable cell into
the missing sentinel (and nothing else into missing — parseable cells
become dates), while the row count is preserved.  The embedding is total,
mirroring `errors='coerce'`: no error is raised. -/
theorem normalize_coerces_dates (t : Table) (r : Resolved) (vs : List Value)
    (hwf : WellFormed t)
    (hv : getCol (renameCols t (buildColumnMapping r)) "Datum" = some vs) :
    getCol (normalize t r) "Datum" = some (vs.map coerceVal) ∧
    (∀ v, coerceVal v = Value.missing ↔ parseDate v = none) ∧
    (∀ v d, parseDate v = some d → coerceVal v = Value.date d) ∧
    numRows (normalize t r) = numRows t := by
  refine ⟨?_, ?_, ?_, numRows_normalize t r hwf⟩
  · unfold normalize
    rw [getCol_deriveOmzet_ne (by decide), getCol_coerceDatum, hv]
    simp [coerceFn_datum]
  · intro v
    cases h : parseDate v with
    | none => simp [coerceVal, h]
    | some d => simp [coerceVal, h]
  · intro v d h
    unfold coerceVal
    rw [h]

theorem normalize_coerces_dates_witness :
    getCol (normalize ⟨[("Datum", [Value.str "2023-01-02", Value.str "notadate"])]⟩
        ⟨none, none, none, none, none⟩) "Datum" =
      some ([Value.str "2023-01-02", Value.str "notadate"].map coerceVal) ∧
    numRows (normalize ⟨[("Datum", [Value.str "2023-01-02", Value.str "notadate"])]⟩
        ⟨none, none, none, none, none⟩) =
      numRows ⟨[("Datum", [Value.str "2023-01-02", Value.str "notadate"])]⟩ :=
  ⟨(normalize_coerces_dates ⟨[("Datum", [Value.str "2023-01-02", Value.str "notadate"])]⟩
      ⟨none, none, none, none, none⟩ [Value.str "2023-01-02", Value.str "notadate"]
      (by decide) (by decide)).1,
   (normalize_coerces_dates ⟨[("Datum", [Value.str "2023-01-02", Value.str "notadate"])]⟩
      ⟨none, none, none, none, none⟩ [Value.str "2023-01-02", Value.str "notadate"]
      (by decide) (by decide)).2.2.2⟩

/-! ### Claim C4 -/

/-- C4: when the renamed table has both canonical columns `Verkoop` and
`Prijs`, `normalize` adds `Omzet` as their element-wise product, a row's
product being a number exactly when both factors are numbers and missing
whenever either factor is missing. -/
theorem normalize_derives_omzet (t : Table) (r : Resolved) (vs ps : List Value)
    (hv : getCol (renameCols t (buildColumnMapping r)) "Verkoop" = some vs)
    (hp : getCol (renameCols t (buildColumnMapping r)) "Prijs" = some ps) :
    getCol (normalize t r) "Omzet" = some (List.zipWith mulVal vs ps) ∧
    (∀ a b : Int, mulVal (Value.num a) (Value.num b) = Value.num (a * b)) ∧
    (∀ v, mulVal Value.missing v = Value.missing) ∧
    (∀ v, mulVal v Value.missing = Value.missing) := by
  have hv2 : getCol (coerceDatum (renameCols t (buildColumnMapping r)))
      "Verkoop" = some vs := by
    rw [getCol_coerceDatum, hv]
    show some (coerceFn "Verkoop" vs) = some vs
    rw [coerceFn_ne vs (by decide)]
  have hp2 : getCol (coerceDatum (renameCols t (buildColumnMapping r)))
      "Prijs" = some ps := by
    rw [getCol_coerceDatum, hp]
    show some (coerceFn "Prijs" ps) = some ps
    rw [coerceFn_ne ps (by decide)]
  have hcond : (hasCol (coerceDatum (renameCols t (buildColumnMapping r))) "Verkoop" &&
      hasCol (coerceDatum (renameCols t (buildColumnMapping r))) "Prijs") = true := by
    rw [Bool.and_eq_true]
    exact ⟨hasCol_of_getCol hv2, hasCol_of_getCol hp2⟩
  refine ⟨?_, fun a b => rfl, fun v => ?_, fun v => ?_⟩
  · unfold normalize deriveOmzet
    rw [if_pos hcond]
    rw [getColD, getColD, hv2, hp2, Option.getD_some, Option.getD_some]
    exact getCol_setCol_self _ _ _
  · cases v <;> rfl
  · cases v <;> rfl

theorem normalize_derives_omzet_witness :
    getCol (normalize ⟨[("Verkoop", [Value.num 2, Value.num 3]),
        ("Prijs", [Value.num 100, Value.num 200])]⟩
        ⟨none, none, none, none, none⟩) "Omzet" =
      some [Value.num 200, Value.num 600] :=
  (normalize_derives_omzet ⟨[("Verkoop", [Value.num 2, Value.num 3]),
      ("Prijs", [Value.num 100, Value.num 200])]⟩ ⟨none, none, none, none, none⟩
    [Value.num 2, Value.num 3] [Value.num 100, Value.num 200]
    (by decide) (by decide)).1

/-! ### Claim C5 -/

/-- C5: the claim states `Omzet` is present iff both `Verkoop` and `Prijs`
are.  The forward direction holds, but a raw table that already carries a
column literally named `Omzet` passes it through even when `Verkoop` and
`Prijs` are absent, so the backward direction fails: here the canonical
table has `Omzet` but neither source column. -/
theorem omzet_without_sources_counterexample :
    hasCol (normalize ⟨[("Omzet", [Value.num 5])]⟩ ⟨none, none, none, none, none⟩)
      "Omzet" = true ∧
    hasCol (normalize ⟨[("Omzet", [Value.num 5])]⟩ ⟨none, none, none, none, none⟩)
      "Verkoop" = false ∧
    hasCol (normalize ⟨[("Omzet", [Value.num 5])]⟩ ⟨none, none, none, none, none⟩)
      "Prijs" = false := by
  decide

/-- C5 (amended): the canonical table contains `Omzet` exactly when both
`Verkoop` and `Prijs` are present in it, or the renamed input already
contained a column named `Omzet`; in particular the iff of the claim holds
for every input table with no pre-existing `Omzet` column. -/
theorem omzet_presence_characterization (t : Table) (r : Resolved) :
    hasCol (normalize t r) "Omzet" =
      ((hasCol (normalize t r) "Verkoop" && hasCol (normalize t r) "Prijs") ||
        hasCol (renameCols t (buildColumnMapping r)) "Omzet") := by
  unfold normalize deriveOmzet
  by_cases hcond : (hasCol (coerceDatum (renameCols t (buildColumnMapping r)))
      "Verkoop" &&
      hasCol (coerceDatum (renameCols t (buildColumnMapping r))) "Prijs") = true
  · rw [if_pos hcond, hasCol_setCol_self,
      hasCol_setCol_ne _ (show "Verkoop" ≠ "Omzet" by decide),
      hasCol_setCol_ne _ (show "Prijs" ≠ "Omzet" by decide), hcond]
    simp
  · rw [Bool.not_eq_true] at hcond
    rw [if_neg (by simp [hcond]), hcond, Bool.false_or]
    exact hasCol_coerceDatum _ _

theorem buildColumnMapping_full {d l p s pr : String}
    (hnd : List.Nodup [d, l, p, s, pr]) :
    buildColumnMapping ⟨some d, some l, some p, some s, some pr⟩ =
      [(d, "Datum"), (l, "Locatie"), (p, "SchoenType"), (s, "Verkoop"),
        (pr, "Prijs")] := by
  simp only [List.nodup_cons, List.mem_cons, List.not_mem_nil, or_false,
    List.nodup_nil, and_true] at hnd
  push_neg at hnd
  obtain ⟨⟨hdl, hdp, hds, hdpr⟩, ⟨hlp, hls, hlpr⟩, ⟨hps, hppr⟩, hspr⟩ := hnd
  simp [buildColumnMapping, addIf, dictInsert, hdl, hdp, hds, hdpr, hlp, hls,
    hlpr, hps, hppr, hspr]

/-! ### Claim C8 -/

/-- C8: the claim covers the no-columns input and asserts the output then
still has the full canonical column set.  It does not: renaming source
columns that are absent from the table is a no-op (as in
`DataFrame.rename`), and the `'Verkoop' in columns` guard of line 116
fails, so a table with no columns normalizes — even under a fully
resolved mapping — to the empty table with no canonical columns at all
(though still with zero rows and without failing). -/
theorem normalize_no_columns_counterexample :
    normalize ⟨[]⟩ ⟨some "A", some "B", some "C", some "D", some "E"⟩ = ⟨[]⟩ ∧
    hasCol (normalize ⟨[]⟩ ⟨some "A", some "B", some "C", some "D", some "E"⟩)
      "Datum" = false ∧
    hasCol (normalize ⟨[]⟩ ⟨some "A", some "B", some "C", some "D", some "E"⟩)
      "Omzet" = false ∧
    numRows (normalize ⟨[]⟩ ⟨some "A", some "B", some "C", some "D", some "E"⟩)
      = 0 := by
  decide

/-- C8 (amended): `normalize` never fails and returns zero rows on a
zero-row input; it returns the full canonical column set `Datum`,
`Locatie`, `SchoenType`, `Verkoop`, `Prijs`, `Omzet` when the fully
resolved mapping names five distinct source columns that are present in
the table — on a no-column input (where no such mapping can exist) the
result is instead an empty table with no columns. -/
theorem normalize_empty_table (t : Table) (d l p s pr : String)
    (hwf : WellFormed t) (hrows : numRows t = 0)
    (hnd : List.Nodup [d, l, p, s, pr])
    (hd : hasCol t d = true) (hl : hasCol t l = true) (hp : hasCol t p = true)
    (hs : hasCol t s = true) (hpr : hasCol t pr = true) :
    numRows (normalize t ⟨some d, some l, some p, some s, some pr⟩) = 0 ∧
    ∀ n ∈ (["Datum", "Locatie", "SchoenType", "Verkoop", "Prijs", "Omzet"] :
      List String),
      hasCol (normalize t ⟨some d, some l, some p, some s, some pr⟩) n = true := by
  have hm := buildColumnMapping_full hnd
  have hnd' := hnd
  simp only [List.nodup_cons, List.mem_cons, List.not_mem_nil, or_false,
    List.nodup_nil, and_true] at hnd'
  push_neg at hnd'
  obtain ⟨⟨hdl, hdp, hds, hdpr⟩, ⟨hlp, hls, hlpr⟩, ⟨hps, hppr⟩, hspr⟩ := hnd'
  have hrd : renameName (buildColumnMapping
      ⟨some d, some l, some p, some s, some pr⟩) d = "Datum" := by
    rw [hm]; simp [renameName]
  have hrl : renameName (buildColumnMapping
      ⟨some d, some l, some p, some s, some pr⟩) l = "Locatie" := by
    rw [hm]; simp [renameName, hdl]
  have hrp : renameName (buildColumnMapping
      ⟨some d, some l, some p, some s, some pr⟩) p = "SchoenType" := by
    rw [hm]; simp [renameName, hdp, hlp]
  have hrs : renameName (buildColumnMapping
      ⟨some d, some l, some p, some s, some pr⟩) s = "Verkoop" := by
    rw [hm]; simp [renameName, hds, hls, hps]
  have hrpr : renameName (buildColumnMapping
      ⟨some d, some l, some p, some s, some pr⟩) pr = "Prijs" := by
    rw [hm]; simp [renameName, hdpr, hlpr, hppr, hspr]
  have mkCanon : ∀ (src can : String), hasCol t src = true →
      renameName (buildColumnMapping ⟨some d, some l, some p, some s, some pr⟩)
        src = can →
      hasCol (renameCols t (buildColumnMapping
        ⟨some d, some l, some p, some s, some pr⟩)) can = true := by
    intro src can hsrc hr
    obtain ⟨vs, hv⟩ := getCol_isSome_of_hasCol hsrc
    exact hasCol_renameCols_of_mem (getCol_eq_some_mem hv) hr
  have h1d := mkCanon d "Datum" hd hrd
  have h1l := mkCanon l "Locatie" hl hrl
  have h1p := mkCanon p "SchoenType" hp hrp
  have h1s := mkCanon s "Verkoop" hs hrs
  have h1pr := mkCanon pr "Prijs" hpr hrpr
  have hcond : (hasCol (coerceDatum (renameCols t (buildColumnMapping
      ⟨some d, some l, some p, some s, some pr⟩))) "Verkoop" &&
      hasCol (coerceDatum (renameCols t (buildColumnMapping
      ⟨some d, some l, some p, some s, some pr⟩))) "Prijs") = true := by
    rw [Bool.and_eq_true, hasCol_coerceDatum, hasCol_coerceDatum]
    exact ⟨h1s, h1pr⟩
  refine ⟨by rw [numRows_normalize t _ hwf, hrows], ?_⟩
  intro n hn
  simp only [List.mem_cons, List.not_mem_nil, or_false] at hn
  rcases hn with rfl | rfl | rfl | rfl | rfl | rfl
  · unfold normalize
    rw [hasCol_deriveOmzet_ne (by decide), hasCol_coerceDatum]
    exact h1d
  · unfold normalize
    rw [hasCol_deriveOmzet_ne (by decide), hasCol_coerceDatum]
    exact h1l
  · unfold normalize
    rw [hasCol_deriveOmzet_ne (by decide), hasCol_coerceDatum]
    exact h1p
  · unfold normalize
    rw [hasCol_deriveOmzet_ne (by decide), hasCol_coerceDatum]
    exact h1s
  · unfold normalize
    rw [hasCol_deriveOmzet_ne (by decide), hasCol_coerceDatum]
    exact h1pr
  · exact hasCol_deriveOmzet_self hcond

theorem normalize_empty_table_witness :
    numRows (normalize ⟨[("A", []), ("B", []), ("C", []), ("D", []), ("E", [])]⟩
      ⟨some "A", some "B", some "C", some "D", some "E"⟩) = 0 ∧
    hasCol (normalize ⟨[("A", []), ("B", []), ("C", []), ("D", []), ("E", [])]⟩
      ⟨some "A", some "B", some "C", some "D", some "E"⟩) "Omzet" = true :=
  ⟨(normalize_empty_table ⟨[("A", []), ("B", []), ("C", []), ("D", []), ("E", [])]⟩
      "A" "B" "C" "D" "E" (by decide) (by decide) (by decide) (by decide)
      (by decide) (by decide) (by decide) (by decide)).1,
   (normalize_empty_table ⟨[("A", []), ("B", []), ("C", []), ("D", []), ("E", [])]⟩
      "A" "B" "C" "D" "E" (by decide) (by decide) (by decide) (by decide)
      (by decide) (by decide) (by decide) (by decide)).2 "Omzet" (by decide)⟩

/-! ### Claim C9 -/

/-- C9: the claim states every unmapped source column passes through
unchanged.  A raw column literally named `Omzet` keeps its name but not
its values: with unmapped columns `Verkoop = [2]`, `Prijs = [3]`,
`Omzet = [999]` and the empty mapping, the revenue derivation overwrites
`Omzet` with `[6]`. -/
theorem passthrough_overwritten_counterexample :
    buildColumnMapping ⟨none, none, none, none, none⟩ = [] ∧
    getCol ⟨[("Verkoop", [Value.num 2]), ("Prijs", [Value.num 3]),
      ("Omzet", [Value.num 999])]⟩ "Omzet" = some [Value.num 999] ∧
    getCol (normalize ⟨[("Verkoop", [Value.num 2]), ("Prijs", [Value.num 3]),
      ("Omzet", [Value.num 999])]⟩ ⟨none, none, none, none, none⟩) "Omzet" =
      some [Value.num 6] := by
  decide

/-- C9 (amended): `normalize` renames the mapped source columns and keeps
every unmapped column under its original name; an unmapped column's name
and values pass through unchanged provided the column is not named
`Datum` (which is date-coerced) and not named `Omzet` (which the revenue
derivation may overwrite). -/
theorem normalize_passthrough_unchanged (t : Table) (r : Resolved)
    (c : String) (vs : List Value) (hm : (c, vs) ∈ t.cols)
    (hun : (buildColumnMapping r).find? (fun q => q.1 = c) = none)
    (hdne : c ≠ "Datum") (hone : c ≠ "Omzet") :
    (c, vs) ∈ (normalize t r).cols := by
  unfold normalize
  have h1 : (c, vs) ∈ (renameCols t (buildColumnMapping r)).cols := by
    have hmm := mem_renameCols (buildColumnMapping r) hm
    rwa [renameName, hun] at hmm
  have h2 : (c, vs) ∈ (coerceDatum (renameCols t (buildColumnMapping r))).cols := by
    unfold coerceDatum
    refine List.mem_map.mpr ⟨(c, vs), h1, ?_⟩
    simp [coerceFn_ne _ hdne]
  unfold deriveOmzet
  split
  · exact mem_setCol_of_ne _ h2 hone
  · exact h2

theorem normalize_passthrough_witness :
    ("Extra", [Value.num 7]) ∈
      (normalize ⟨[("Extra", [Value.num 7])]⟩
        ⟨none, none, none, none, none⟩).cols :=
  normalize_passthrough_unchanged ⟨[("Extra", [Value.num 7])]⟩
    ⟨none, none, none, none, none⟩ "Extra" [Value.num 7]
    (by decide) (by decide) (by decide) (by decide)

/-! ### Claim C10 -/

/-- C10: `normalize` preserves the row count of every well-formed input
table under every mapping: renaming and date coercion keep each column's
length, and the derived `Omzet` column has exactly the table's row count,
so the canonical table has as many rows as the raw table. -/
theorem normalize_preserves_numRows (t : Table) (r : Resolved)
    (hwf : WellFormed t) : numRows (normalize t r) = numRows t :=
  numRows_normalize t r hwf

theorem normalize_preserves_numRows_witness :
    numRows (normalize ⟨[("Datum", [Value.str "x"]), ("Verkoop", [Value.num 1]),
      ("Prijs", [Value.num 2])]⟩ ⟨none, none, none, none, none⟩) =
      numRows ⟨[("Datum", [Value.str "x"]), ("Verkoop", [Value.num 1]),
      ("Prijs", [Value.num 2])]⟩ :=
  normalize_preserves_numRows ⟨[("Datum", [Value.str "x"]),
    ("Verkoop", [Value.num 1]), ("Prijs", [Value.num 2])]⟩
    ⟨none, none, none, none, none⟩ (by decide)

end AppDemo
